import Mathlib

/-!
Verification development for `src/util/disasm.c` (freedreno a2xx shader
disassembler).  The C code is shallowly embedded: 32-bit words are `Nat`
values below `2 ^ 32`, buffers are `List Nat`, `printf` output is modelled
as `String` values for the per-slot decoders and as a trace of `Event`s for
the top-level `disasm` walk, and the two `while` loops of `disasm` are
modelled with an explicit fuel parameter (the returned `Bool` is `false`
when the fuel ran out before the loop condition became false).
-/

namespace Freedreno

/-- Modulus of the C `uint32_t` arithmetic used throughout `disasm.c`. -/
def wordMod : Nat := 4294967296

/-- Reading `dwords[i]` from the input buffer.  Out-of-range reads (which
are undefined behaviour in the C source) return 0 here; the theorems below
either stay in bounds or only use position information for such reads. -/
def wordAt (d : List Nat) (i : Nat) : Nat := d.getD i 0

/-- The `levels` indentation table of `disasm.c` (15 entries: one to nine
tabs, then six `"x"` placeholders). -/
def levels : List String :=
  ["\t", "\t\t", "\t\t\t", "\t\t\t\t", "\t\t\t\t\t", "\t\t\t\t\t\t",
   "\t\t\t\t\t\t\t", "\t\t\t\t\t\t\t\t", "\t\t\t\t\t\t\t\t\t",
   "x", "x", "x", "x", "x", "x"]

/-- The `chan_names` table: channel names x, y, z, w. -/
def chan_names : List Char := ['x', 'y', 'z', 'w']

/-- One character printed by the swizzle loop of `print_srcreg`: at loop
index `i` the (already shifted) swizzle value `s` selects
`chan_names[(s + i) & 0x3]`. -/
def swizChar (s i : Nat) : Char := chan_names.getD ((s + i) % 4) 'x'

/-- Embedding of `print_srcreg(num, type, swiz, negate)`.  The C loop
mutates `swiz` (`swiz >>= 2` after each character); the four iterations are
unrolled here with the shifted values `swiz >> 0, >> 2, >> 4, >> 6`. -/
def print_srcreg (num type swiz negate : Nat) : String :=
  (if negate ≠ 0 then "-" else "") ++
  (if type ≠ 0 then "C" else "R") ++ toString num ++
  (if swiz ≠ 0 then
    "." ++ String.mk [swizChar swiz 0, swizChar (swiz / 4) 1,
                      swizChar (swiz / 16) 2, swizChar (swiz / 64) 3]
  else "")

/-- One character printed by the mask loop of `print_dstreg`: the (already
shifted) mask `m` prints `chan_names[i]` if its low bit is set, else `_`. -/
def dstChar (m i : Nat) : Char := if m % 2 = 1 then chan_names.getD i '_' else '_'

/-- Embedding of `print_dstreg(num, mask)`; the C loop mutates `mask`
(`mask >>= 1`), unrolled here with the shifted values. -/
def print_dstreg (num mask : Nat) : String :=
  "R" ++ toString num ++
  (if mask ≠ 15 then
    "." ++ String.mk [dstChar mask 0, dstChar (mask / 2) 1,
                      dstChar (mask / 4) 2, dstChar (mask / 8) 3]
  else "")

/-- The sparse `op_name[0x1f]` table of `disasm_alu`: 31 entries, with
named mnemonics at indices 0, 1, 2, 11, 15, 16 and NULL (`none`)
elsewhere. -/
def op_name : List (Option String) :=
  [some "ADDv", some "MULv", some "MAXv", none, none, none, none, none,
   none, none, none, some "MULADDv", none, none, none, some "DOT4v",
   some "DOT3v", none, none, none, none, none, none, none, none, none,
   none, none, none, none, none]

/-- `dst_reg = dwords[0] & REG_MASK` (REG_MASK = 0x1f). -/
def alu_dst_reg (d : List Nat) : Nat := wordAt d 0 % 32

/-- `dst_mask = (dwords[0] >> 16) & 0xf`. -/
def alu_dst_mask (d : List Nat) : Nat := wordAt d 0 / 65536 % 16

/-- `src1_reg = (dwords[2] >> 16) & REG_MASK`. -/
def alu_src1_reg (d : List Nat) : Nat := wordAt d 2 / 65536 % 32

/-- `src2_reg = (dwords[2] >> 8) & REG_MASK`. -/
def alu_src2_reg (d : List Nat) : Nat := wordAt d 2 / 256 % 32

/-- `src1_type = !(dwords[2] & 0x80000000)`. -/
def alu_src1_type (d : List Nat) : Nat :=
  if wordAt d 2 &&& 0x80000000 = 0 then 1 else 0

/-- `src2_type = !(dwords[2] & 0x40000000)`. -/
def alu_src2_type (d : List Nat) : Nat :=
  if wordAt d 2 &&& 0x40000000 = 0 then 1 else 0

/-- `src1_swiz = (dwords[1] >> 16) & 0xff`. -/
def alu_src1_swiz (d : List Nat) : Nat := wordAt d 1 / 65536 % 256

/-- `src2_swiz = (dwords[1] >> 8) & 0xff`. -/
def alu_src2_swiz (d : List Nat) : Nat := wordAt d 1 / 256 % 256

/-- `src1_neg = dwords[1] & 0x04000000` (kept as the raw masked value,
exactly as the C local; only its zero-ness is ever used). -/
def alu_src1_neg (d : List Nat) : Nat := wordAt d 1 &&& 0x04000000

/-- `src2_neg = dwords[1] & 0x02000000`. -/
def alu_src2_neg (d : List Nat) : Nat := wordAt d 1 &&& 0x02000000

/-- `op = (dwords[2] >> 24) & 0x1f`. -/
def alu_op (d : List Nat) : Nat := wordAt d 2 / 16777216 % 32

/-- The mnemonic chosen by `disasm_alu` for opcode `op`:
`op_name[op] ? op_name[op] : "OP(op)"`.  `none` means the table access
itself was out of bounds (undefined behaviour in C). -/
def alu_mnemonic (op : Nat) : Option String :=
  (op_name.get? op).map fun e => e.getD ("OP(" ++ toString op ++ ")")

/-- `printf("%08x", n)`: lower-case hexadecimal, zero-padded to 8 digits. -/
def hex8 (n : Nat) : String :=
  let s := Nat.toDigits 16 (n % wordMod)
  String.mk (List.replicate (8 - s.length) '0' ++ s)

/-- The `print_unknown` dump of `disasm_alu`: the three words with the
already identified bitfields masked off (`w & ~mask` is `w & (2^32-1-mask)`
on 32-bit words). -/
def alu_unknown (d : List Nat) : String :=
  hex8 (wordAt d 0 &&& (wordMod - 1 - 0xf001f)) ++ " " ++
  hex8 (wordAt d 1 &&& (wordMod - 1 - 0x06ffff00)) ++ " " ++
  hex8 (wordAt d 2 &&& (wordMod - 1 - 0xdf1f1f00)) ++ "\t"

/-- Embedding of `disasm_alu` (the text it prints for one slot).  The
result is `none` exactly when `op_name[op]` is an out-of-bounds access. -/
def disasm_alu (d : List Nat) : Option String :=
  (alu_mnemonic (alu_op d)).map fun m =>
    alu_unknown d ++ "\tALU:\t" ++ m ++ "\t" ++
    print_dstreg (alu_dst_reg d) (alu_dst_mask d) ++ " = " ++
    print_srcreg (alu_src1_reg d) (alu_src1_type d) (alu_src1_swiz d)
      (alu_src1_neg d) ++ ", " ++
    print_srcreg (alu_src2_reg d) (alu_src2_type d) (alu_src2_swiz d)
      (alu_src2_neg d) ++ "\n"

/-- `src_const = (dwords[0] >> 20) & 0xf` of `disasm_fetch`. -/
def fetch_src_const (d : List Nat) : Nat := wordAt d 0 / 1048576 % 16

/-- `src_reg = (dwords[0] >> 5) & REG_MASK` of `disasm_fetch`. -/
def fetch_src_reg (d : List Nat) : Nat := wordAt d 0 / 32 % 32

/-- `dst_reg = (dwords[0] >> 12) & REG_MASK` of `disasm_fetch`. -/
def fetch_dst_reg (d : List Nat) : Nat := wordAt d 0 / 4096 % 32

/-- The `print_unknown` dump of `disasm_fetch`. -/
def fetch_unknown (d : List Nat) : String :=
  hex8 (wordAt d 0 &&& (wordMod - 1 - 0xf1f3e0)) ++ " " ++
  hex8 (wordAt d 1) ++ " " ++ hex8 (wordAt d 2) ++ "\t"

/-- Embedding of `disasm_fetch` (the text it prints for one slot). -/
def disasm_fetch (d : List Nat) : String :=
  fetch_unknown d ++ "\tFETCH:\tSAMPLE\tR" ++ toString (fetch_dst_reg d) ++
  " = R" ++ toString (fetch_src_reg d) ++ " CONST(" ++
  toString (fetch_src_const d) ++ ")\n"

/-- The `print_raw` dump shared by `disasm_inst` (and `disasm_cf`). -/
def rawWords (d : List Nat) : String :=
  hex8 (wordAt d 0) ++ " " ++ hex8 (wordAt d 1) ++ " " ++ hex8 (wordAt d 2) ++ "\t"

/-- Embedding of `disasm_inst`: indentation via `levels[level]` (`none`
when `level` indexes past the table, which is undefined behaviour in C),
the raw dump, then dispatch on `dwords[2] & 0xf0000000` to `disasm_alu` or
`disasm_fetch`. -/
def disasm_inst (d : List Nat) (level : Nat) : Option String :=
  match levels.get? level with
  | none => none
  | some lv =>
    if wordAt d 2 &&& 0xf0000000 ≠ 0 then
      (disasm_alu d).map fun s => lv ++ rawWords d ++ s
    else
      some (lv ++ rawWords d ++ disasm_fetch d)

/-- One observable step of the top-level `disasm` walk: a CF entry printed
by `disasm_cf` (its index and the `off`/`cnt` values passed to it), an
instruction slot handed to `disasm_inst` (identified by the word position
`alu_off` it was decoded at), or a lone `"?"` desync marker. -/
inductive Event where
  | cf (idx off cnt : Nat)
  | inst (pos : Nat)
  | marker
  deriving DecidableEq

/-- Embedding of the two resync `while (alu_off != target)` loops of
`disasm`: from cursor `a`, while `a ≠ t`, print `"?"`, decode the slot at
`a`, and advance `a` by 3 in `uint32_t` arithmetic.  `fuel` bounds the
number of iterations; the `Bool` is `false` when the loop was still
running when the fuel ran out (third component of the result is the loop
state at that point). -/
def guardRun : Nat → Nat → Nat → List Event × Nat × Bool
  | a, t, 0 => if a = t then ([], a, true) else ([], a, false)
  | a, t, fuel + 1 =>
    if a = t then ([], a, true)
    else
      let r := guardRun ((a + 3) % wordMod) t fuel
      (Event.marker :: Event.inst a :: r.1, r.2)

/-- Embedding of the body loop `for (j = 0; j < cnt; j++)` of `disasm`:
decode `cnt` slots starting at cursor `a`, advancing by 3 each time. -/
def bodyRun : Nat → Nat → List Event × Nat
  | a, 0 => ([], a)
  | a, c + 1 =>
    let r := bodyRun ((a + 3) % wordMod) c
    (Event.inst a :: r.1, r.2)

/-- The `off` value used for CF entry `i` when the cursor is `a`:
`dwords[idx] & 0x0fff`, replaced by `alu_off / 3` when the header word is
zero (the per-entry degenerate case). -/
def entryOff (d : List Nat) (L i a : Nat) : Nat :=
  if wordAt d (i * 3) = 0 then a / 3 else wordAt d (i * 3) % 4096

/-- The `cnt` value used for CF entry `i` when the cursor is `a`:
`(dwords[idx] & 0xf000) >> 12`, replaced by `(sizedwords / 3) - off` in
`uint32_t` arithmetic when the header word is zero. -/
def entryCnt (d : List Nat) (L i a : Nat) : Nat :=
  if wordAt d (i * 3) = 0 then (L / 3 + wordMod - a / 3) % wordMod
  else wordAt d (i * 3) % 65536 / 4096

/-- Embedding of the `for (i = 0; i < first_off; i++)` loop of `disasm`
(with `n` entries left to process, the next having index `i`): parse the
header slot, run the resync guard, print the CF entry, decode its `cnt`
body slots, continue.  A `false` flag means a resync guard inside ran out
of fuel. -/
def cfLoop (d : List Nat) (L : Nat) : Nat → Nat → Nat → Nat → List Event × Nat × Bool
  | _, 0, a, _ => ([], a, true)
  | i, n + 1, a, fuel =>
    let off := entryOff d L i a
    let cnt := entryCnt d L i a
    let pre : List Event := if wordAt d (i * 3) = 0 then [Event.marker] else []
    let g := guardRun a (off * 3) fuel
    if g.2.2 then
      let b := bodyRun g.2.1 cnt
      let r := cfLoop d L (i + 1) n b.2 fuel
      (pre ++ g.1 ++ Event.cf i off cnt :: (b.1 ++ r.1), r.2)
    else
      (pre ++ g.1, g.2.1, false)

/-- Embedding of the top-level `disasm(dwords, sizedwords, level)`:
read `first_off` from the low 12 bits of word 0, handle the degenerate
all-zero first word (synthesize CF entry 0 with `off = 1`,
`cnt = sizedwords/3 - 1` and set the cursor to 3), run the CF-entry loop,
then drain trailing slots until the cursor reaches `sizedwords`. -/
def disasm (d : List Nat) (sizedwords fuel : Nat) : List Event × Nat × Bool :=
  let first_off := wordAt d 0 % 4096
  let init : List Event × Nat :=
    if wordAt d 0 = 0 then
      ([Event.cf 0 1 ((sizedwords / 3 + wordMod - 1) % wordMod)], 3)
    else
      ([], first_off * 3)
  let l := cfLoop d sizedwords 0 first_off init.2 fuel
  if l.2.2 then
    let g := guardRun l.2.1 sizedwords fuel
    (init.1 ++ l.1 ++ g.1, g.2)
  else
    (init.1 ++ l.1, l.2)

/-- The word positions of the instruction slots decoded in a trace, in
decode order. -/
def instPosList (evs : List Event) : List Nat :=
  evs.filterMap fun e =>
    match e with
    | Event.inst p => some p
    | _ => none

/-- The CF-entry events of a trace, in print order. -/
def cfEvents (evs : List Event) : List Event :=
  evs.filter fun e =>
    match e with
    | Event.cf _ _ _ => true
    | _ => false

/-- The arithmetic progression `a, a+3, ..., a+3*(k-1)` of the cursor
positions visited by `k` slot decodes starting at `a`. -/
def prog : Nat → Nat → List Nat
  | _, 0 => []
  | a, k + 1 => a :: prog (a + 3) k

/-- The trace produced by a resync guard that runs `k` iterations from
cursor `a`: a `"?"` marker and a slot decode per skipped slot. -/
def guardTrace : Nat → Nat → List Event
  | _, 0 => []
  | a, k + 1 => Event.marker :: Event.inst a :: guardTrace (a + 3) k

/-- The trace produced by a CF-entry body of `c` slots from cursor `a`. -/
def bodyTrace : Nat → Nat → List Event
  | _, 0 => []
  | a, c + 1 => Event.inst a :: bodyTrace (a + 3) c

/-- The final cursor of the CF-entry loop, assuming every resync guard in
it terminates: each entry moves the cursor to `off * 3 + 3 * cnt`. -/
def entriesEnd (d : List Nat) (L : Nat) : Nat → Nat → Nat → Nat
  | _, 0, a => a
  | i, n + 1, a =>
    entriesEnd d L (i + 1) n (entryOff d L i a * 3 + 3 * entryCnt d L i a)

/-- Well-formedness of the CF entries as seen from cursor `a`: every
entry declares a start at or after the current cursor, and its range stays
below `2 ^ 32` (so the 32-bit cursor never wraps). -/
def entriesOk (d : List Nat) (L : Nat) : Nat → Nat → Nat → Bool
  | _, 0, _ => true
  | i, n + 1, a =>
    decide (a ≤ entryOff d L i a * 3) &&
    decide (entryOff d L i a * 3 + 3 * entryCnt d L i a < wordMod) &&
    entriesOk d L (i + 1) n (entryOff d L i a * 3 + 3 * entryCnt d L i a)

/-- The trace of the CF-entry loop, assuming every resync guard in it
terminates. -/
def entriesTrace (d : List Nat) (L : Nat) : Nat → Nat → Nat → List Event
  | _, 0, _ => []
  | i, n + 1, a =>
    let off := entryOff d L i a
    let cnt := entryCnt d L i a
    (if wordAt d (i * 3) = 0 then [Event.marker] else []) ++
    guardTrace a ((off * 3 - a) / 3) ++
    Event.cf i off cnt :: (bodyTrace (off * 3) cnt ++
      entriesTrace d L (i + 1) n (off * 3 + 3 * cnt))

/-- Well-formedness of a whole `disasm` input of `L` words: `L` is a
positive multiple of 3 below `2 ^ 32`, the CF header region lies inside
the buffer, and (in the non-degenerate case) the CF entries are
well-formed from the initial cursor on and end at or before the end of the
buffer. -/
def disasmOk (d : List Nat) (L : Nat) : Bool :=
  let first_off := wordAt d 0 % 4096
  decide (L % 3 = 0) && decide (L < wordMod) &&
  (if wordAt d 0 = 0 then decide (3 ≤ L)
   else
     decide (first_off * 3 ≤ L) &&
     entriesOk d L 0 first_off (first_off * 3) &&
     decide (entriesEnd d L 0 first_off (first_off * 3) ≤ L))

lemma wordMod_eq : wordMod = 2 ^ 32 := rfl

lemma prog_append (k1 : Nat) : ∀ k2 a, prog a (k1 + k2) = prog a k1 ++ prog (a + 3 * k1) k2 := by
  induction k1 with
  | zero => intro k2 a; simp [prog]
  | succ k ih =>
    intro k2 a
    have h : k + 1 + k2 = (k + k2) + 1 := by omega
    rw [h]
    show a :: prog (a + 3) (k + k2) = (a :: prog (a + 3) k) ++ prog (a + 3 * (k + 1)) k2
    rw [ih k2 (a + 3)]
    have h2 : a + 3 + 3 * k = a + 3 * (k + 1) := by omega
    rw [h2]
    rfl

lemma mem_prog : ∀ k a p, p ∈ prog a k ↔ ∃ j, j < k ∧ p = a + 3 * j := by
  intro k
  induction k with
  | zero => intro a p; simp [prog]
  | succ k ih =>
    intro a p
    show p ∈ a :: prog (a + 3) k ↔ _
    simp only [List.mem_cons, ih]
    constructor
    · rintro (rfl | ⟨j, hj, rfl⟩)
      · exact ⟨0, by omega, by omega⟩
      · exact ⟨j + 1, by omega, by omega⟩
    · rintro ⟨j, hj, rfl⟩
      cases j with
      | zero => left; omega
      | succ j => right; exact ⟨j, by omega, by omega⟩

lemma prog_pairwise : ∀ k a, (prog a k).Pairwise (· < ·) := by
  intro k
  induction k with
  | zero => intro a; simp [prog]
  | succ k ih =>
    intro a
    show (a :: prog (a + 3) k).Pairwise (· < ·)
    refine List.Pairwise.cons ?_ (ih (a + 3))
    intro p hp
    rcases (mem_prog k (a + 3) p).1 hp with ⟨j, _, rfl⟩
    omega

lemma prog_nodup (k a : Nat) : (prog a k).Nodup :=
  (prog_pairwise k a).imp fun h => Nat.ne_of_lt h

lemma prog_length : ∀ k a, (prog a k).length = k := by
  intro k
  induction k with
  | zero => intro a; rfl
  | succ k ih => intro a; show (a :: prog (a + 3) k).length = k + 1; simp [ih]

lemma instPosList_nil : instPosList [] = [] := rfl

lemma instPosList_cons_marker (l : List Event) :
    instPosList (Event.marker :: l) = instPosList l := rfl

lemma instPosList_cons_inst (p : Nat) (l : List Event) :
    instPosList (Event.inst p :: l) = p :: instPosList l := rfl

lemma instPosList_cons_cf (i o c : Nat) (l : List Event) :
    instPosList (Event.cf i o c :: l) = instPosList l := rfl

lemma cfEvents_nil : cfEvents [] = [] := rfl

lemma cfEvents_cons_marker (l : List Event) :
    cfEvents (Event.marker :: l) = cfEvents l := rfl

lemma cfEvents_cons_inst (p : Nat) (l : List Event) :
    cfEvents (Event.inst p :: l) = cfEvents l := rfl

lemma cfEvents_cons_cf (i o c : Nat) (l : List Event) :
    cfEvents (Event.cf i o c :: l) = Event.cf i o c :: cfEvents l := rfl

lemma guardTrace_eq_flatMap : ∀ k a,
    guardTrace a k = (prog a k).flatMap fun p => [Event.marker, Event.inst p] := by
  intro k
  induction k with
  | zero => intro a; rfl
  | succ k ih =>
    intro a
    show Event.marker :: Event.inst a :: guardTrace (a + 3) k =
      ((a :: prog (a + 3) k).flatMap fun p => [Event.marker, Event.inst p])
    rw [List.flatMap_cons, ih (a + 3)]
    rfl

lemma instPosList_append (xs ys : List Event) :
    instPosList (xs ++ ys) = instPosList xs ++ instPosList ys := by
  simp [instPosList, List.filterMap_append]

lemma cfEvents_append (xs ys : List Event) :
    cfEvents (xs ++ ys) = cfEvents xs ++ cfEvents ys := by
  simp [cfEvents, List.filter_append]

lemma instPosList_guardTrace : ∀ k a, instPosList (guardTrace a k) = prog a k := by
  intro k
  induction k with
  | zero => intro a; rfl
  | succ k ih =>
    intro a
    show instPosList (Event.marker :: Event.inst a :: guardTrace (a + 3) k) = a :: prog (a + 3) k
    rw [instPosList_cons_marker, instPosList_cons_inst, ih (a + 3)]

lemma cfEvents_guardTrace : ∀ k a, cfEvents (guardTrace a k) = [] := by
  intro k
  induction k with
  | zero => intro a; rfl
  | succ k ih =>
    intro a
    show cfEvents (Event.marker :: Event.inst a :: guardTrace (a + 3) k) = []
    rw [cfEvents_cons_marker, cfEvents_cons_inst, ih (a + 3)]

lemma instPosList_bodyTrace : ∀ c a, instPosList (bodyTrace a c) = prog a c := by
  intro c
  induction c with
  | zero => intro a; rfl
  | succ c ih =>
    intro a
    show instPosList (Event.inst a :: bodyTrace (a + 3) c) = a :: prog (a + 3) c
    rw [instPosList_cons_inst, ih (a + 3)]

lemma cfEvents_bodyTrace : ∀ c a, cfEvents (bodyTrace a c) = [] := by
  intro c
  induction c with
  | zero => intro a; rfl
  | succ c ih =>
    intro a
    show cfEvents (Event.inst a :: bodyTrace (a + 3) c) = []
    rw [cfEvents_cons_inst, ih (a + 3)]

lemma count_inst_guardTrace : ∀ k a p,
    (guardTrace a k).count (Event.inst p) = (prog a k).count p := by
  intro k
  induction k with
  | zero => intro a p; rfl
  | succ k ih =>
    intro a p
    show (Event.marker :: Event.inst a :: guardTrace (a + 3) k).count (Event.inst p) =
      (a :: prog (a + 3) k).count p
    rw [List.count_cons, List.count_cons, List.count_cons]
    rw [ih (a + 3) p]
    simp

lemma guardRun_self (a fuel : Nat) : guardRun a a fuel = ([], a, true) := by
  cases fuel <;> simp [guardRun]

lemma guardRun_eq : ∀ k a fuel, a + 3 * k < wordMod → k ≤ fuel →
    guardRun a (a + 3 * k) fuel = (guardTrace a k, a + 3 * k, true) := by
  intro k
  induction k with
  | zero =>
    intro a fuel _ _
    simpa [guardTrace] using guardRun_self a fuel
  | succ k ih =>
    intro a fuel hlt hfuel
    obtain ⟨f, rfl⟩ : ∃ f, fuel = f + 1 := ⟨fuel - 1, by omega⟩
    have hne : a ≠ a + 3 * (k + 1) := by omega
    show guardRun a (a + 3 * (k + 1)) (f + 1) = _
    rw [guardRun]
    rw [if_neg hne]
    have hmod : (a + 3) % wordMod = a + 3 := Nat.mod_eq_of_lt (by omega)
    have harg : a + 3 * (k + 1) = (a + 3) + 3 * k := by omega
    rw [hmod, harg, ih (a + 3) f (by omega) (by omega)]
    rfl

lemma bodyRun_eq : ∀ c a, a + 3 * c < wordMod →
    bodyRun a c = (bodyTrace a c, a + 3 * c) := by
  intro c
  induction c with
  | zero => intro a _; simp [bodyRun, bodyTrace]
  | succ c ih =>
    intro a hlt
    show bodyRun a (c + 1) = _
    rw [bodyRun]
    have hmod : (a + 3) % wordMod = a + 3 := Nat.mod_eq_of_lt (by omega)
    rw [hmod, ih (a + 3) (by omega)]
    show (Event.inst a :: bodyTrace (a + 3) c, (a + 3) + 3 * c) = _
    refine Prod.ext rfl ?_
    show (a + 3) + 3 * c = a + 3 * (c + 1)
    omega

lemma entriesEnd_mono (d : List Nat) (L : Nat) : ∀ n i a, entriesOk d L i n a = true →
    a ≤ entriesEnd d L i n a := by
  intro n
  induction n with
  | zero => intro i a _; exact le_refl a
  | succ n ih =>
    intro i a hok
    simp only [entriesOk, Bool.and_eq_true, decide_eq_true_eq] at hok
    obtain ⟨⟨h1, _⟩, hok2⟩ := hok
    have h := ih (i + 1) (entryOff d L i a * 3 + 3 * entryCnt d L i a) hok2
    show a ≤ entriesEnd d L (i + 1) n (entryOff d L i a * 3 + 3 * entryCnt d L i a)
    omega

lemma entriesEnd_dvd (d : List Nat) (L : Nat) : ∀ n i a, 3 ∣ a →
    3 ∣ entriesEnd d L i n a := by
  intro n
  induction n with
  | zero => intro i a h; exact h
  | succ n ih =>
    intro i a _
    show 3 ∣ entriesEnd d L (i + 1) n (entryOff d L i a * 3 + 3 * entryCnt d L i a)
    exact ih (i + 1) _ ⟨entryOff d L i a + entryCnt d L i a, by ring⟩

lemma cfLoop_eq (d : List Nat) (L : Nat) : ∀ n i a fuel,
    entriesOk d L i n a = true → 3 ∣ a → entriesEnd d L i n a ≤ 3 * fuel →
    cfLoop d L i n a fuel = (entriesTrace d L i n a, entriesEnd d L i n a, true) := by
  intro n
  induction n with
  | zero => intro i a fuel _ _ _; rfl
  | succ n ih =>
    intro i a fuel hok h3 hfuel
    simp only [entriesOk, Bool.and_eq_true, decide_eq_true_eq] at hok
    obtain ⟨⟨h1, h2⟩, hok2⟩ := hok
    have hfe : entriesEnd d L i (n + 1) a =
        entriesEnd d L (i + 1) n (entryOff d L i a * 3 + 3 * entryCnt d L i a) := rfl
    rw [hfe] at hfuel
    have hmono : entryOff d L i a * 3 + 3 * entryCnt d L i a ≤
        entriesEnd d L (i + 1) n (entryOff d L i a * 3 + 3 * entryCnt d L i a) :=
      entriesEnd_mono d L n (i + 1) _ hok2
    obtain ⟨aa, rfl⟩ := h3
    have haa : aa ≤ entryOff d L i (3 * aa) := by omega
    have hg : guardRun (3 * aa) (entryOff d L i (3 * aa) * 3) fuel =
        (guardTrace (3 * aa) (entryOff d L i (3 * aa) - aa),
         entryOff d L i (3 * aa) * 3, true) := by
      have htar : entryOff d L i (3 * aa) * 3 =
          3 * aa + 3 * (entryOff d L i (3 * aa) - aa) := by omega
      rw [htar]
      exact guardRun_eq _ _ _ (by omega) (by omega)
    have hb : bodyRun (entryOff d L i (3 * aa) * 3) (entryCnt d L i (3 * aa)) =
        (bodyTrace (entryOff d L i (3 * aa) * 3) (entryCnt d L i (3 * aa)),
         entryOff d L i (3 * aa) * 3 + 3 * entryCnt d L i (3 * aa)) :=
      bodyRun_eq _ _ (by omega)
    have hr := ih (i + 1) (entryOff d L i (3 * aa) * 3 + 3 * entryCnt d L i (3 * aa)) fuel
      hok2 ⟨entryOff d L i (3 * aa) + entryCnt d L i (3 * aa), by ring⟩ (by omega)
    have hkk : (entryOff d L i (3 * aa) * 3 - 3 * aa) / 3 =
        entryOff d L i (3 * aa) - aa := by omega
    simp only [cfLoop, entriesTrace, hg, hb, hr, hkk, hfe]
    simp

lemma instPosList_entriesTrace (d : List Nat) (L : Nat) : ∀ n i a,
    entriesOk d L i n a = true → 3 ∣ a →
    instPosList (entriesTrace d L i n a) =
      prog a ((entriesEnd d L i n a - a) / 3) := by
  intro n
  induction n with
  | zero =>
    intro i a _ _
    show instPosList [] = prog a ((a - a) / 3)
    have h : (a - a) / 3 = 0 := by omega
    rw [h]
    rfl
  | succ n ih =>
    intro i a hok h3
    simp only [entriesOk, Bool.and_eq_true, decide_eq_true_eq] at hok
    obtain ⟨⟨h1, h2⟩, hok2⟩ := hok
    have hmono : entryOff d L i a * 3 + 3 * entryCnt d L i a ≤
        entriesEnd d L (i + 1) n (entryOff d L i a * 3 + 3 * entryCnt d L i a) :=
      entriesEnd_mono d L n (i + 1) _ hok2
    have hEdvd : 3 ∣ entriesEnd d L (i + 1) n (entryOff d L i a * 3 + 3 * entryCnt d L i a) :=
      entriesEnd_dvd d L n (i + 1) _ ⟨entryOff d L i a + entryCnt d L i a, by ring⟩
    obtain ⟨aa, rfl⟩ := h3
    obtain ⟨ee, hee⟩ := hEdvd
    have hpre : instPosList (if wordAt d (i * 3) = 0 then [Event.marker] else []) = [] := by
      split <;> rfl
    have hih := ih (i + 1) (entryOff d L i (3 * aa) * 3 + 3 * entryCnt d L i (3 * aa))
      hok2 ⟨entryOff d L i (3 * aa) + entryCnt d L i (3 * aa), by ring⟩
    simp only [entriesTrace, instPosList_append, instPosList_cons_cf, hpre,
      instPosList_guardTrace, instPosList_bodyTrace, hih, List.nil_append]
    have hfe : entriesEnd d L i (n + 1) (3 * aa) =
        entriesEnd d L (i + 1) n (entryOff d L i (3 * aa) * 3 + 3 * entryCnt d L i (3 * aa)) := rfl
    rw [hfe]
    have hk1 : (entryOff d L i (3 * aa) * 3 - 3 * aa) / 3 =
        entryOff d L i (3 * aa) - aa := by omega
    rw [hk1]
    have hsplit1 : prog (3 * aa)
        ((entriesEnd d L (i + 1) n (entryOff d L i (3 * aa) * 3 + 3 * entryCnt d L i (3 * aa)) -
          3 * aa) / 3) =
        prog (3 * aa) (entryOff d L i (3 * aa) - aa) ++
        prog (3 * aa + 3 * (entryOff d L i (3 * aa) - aa))
          (entryCnt d L i (3 * aa) +
           (entriesEnd d L (i + 1) n (entryOff d L i (3 * aa) * 3 + 3 * entryCnt d L i (3 * aa)) -
            (entryOff d L i (3 * aa) * 3 + 3 * entryCnt d L i (3 * aa))) / 3) := by
      rw [← prog_append]
      congr 1
      omega
    rw [hsplit1]
    congr 1
    have hstart : 3 * aa + 3 * (entryOff d L i (3 * aa) - aa) = entryOff d L i (3 * aa) * 3 := by
      omega
    rw [hstart, prog_append]

lemma cfEvents_entriesTrace (d : List Nat) (L : Nat) : ∀ n i a,
    (cfEvents (entriesTrace d L i n a)).length = n := by
  intro n
  induction n with
  | zero => intro i a; rfl
  | succ n ih =>
    intro i a
    have hpre : cfEvents (if wordAt d (i * 3) = 0 then [Event.marker] else []) = [] := by
      split <;> rfl
    simp only [entriesTrace, cfEvents_append, cfEvents_cons_cf, hpre, cfEvents_guardTrace,
      cfEvents_bodyTrace, List.nil_append, List.length_append, List.length_cons, ih]

lemma disasm_eq_zero (d : List Nat) (L fuel : Nat) (h0 : wordAt d 0 = 0)
    (h3 : 3 ≤ L) (hmod : L % 3 = 0) (hM : L < wordMod) (hfuel : (L - 3) / 3 ≤ fuel) :
    disasm d L fuel = (Event.cf 0 1 (L / 3 - 1) :: guardTrace 3 ((L - 3) / 3), L, true) := by
  have hM2 : L < 4294967296 := hM
  have hcnt : (L / 3 + wordMod - 1) % wordMod = L / 3 - 1 := by
    simp only [wordMod]
    omega
  have hdrain : guardRun 3 L fuel = (guardTrace 3 ((L - 3) / 3), L, true) := by
    have h := guardRun_eq ((L - 3) / 3) 3 fuel (by omega) hfuel
    rw [show 3 + 3 * ((L - 3) / 3) = L from by omega] at h
    exact h
  simp [disasm, cfLoop, h0, hdrain, hcnt]

lemma disasm_eq_pos (d : List Nat) (L fuel : Nat) (h0 : wordAt d 0 ≠ 0)
    (hok : entriesOk d L 0 (wordAt d 0 % 4096) (wordAt d 0 % 4096 * 3) = true)
    (hend : entriesEnd d L 0 (wordAt d 0 % 4096) (wordAt d 0 % 4096 * 3) ≤ L)
    (hmod : L % 3 = 0) (hM : L < wordMod) (hfuel : L ≤ fuel) :
    disasm d L fuel =
      (entriesTrace d L 0 (wordAt d 0 % 4096) (wordAt d 0 % 4096 * 3) ++
        guardTrace (entriesEnd d L 0 (wordAt d 0 % 4096) (wordAt d 0 % 4096 * 3))
          ((L - entriesEnd d L 0 (wordAt d 0 % 4096) (wordAt d 0 % 4096 * 3)) / 3),
       L, true) := by
  have hEdvd : 3 ∣ entriesEnd d L 0 (wordAt d 0 % 4096) (wordAt d 0 % 4096 * 3) :=
    entriesEnd_dvd d L _ 0 _ ⟨wordAt d 0 % 4096, by ring⟩
  obtain ⟨ee, hee⟩ := hEdvd
  have hloop := cfLoop_eq d L (wordAt d 0 % 4096) 0 (wordAt d 0 % 4096 * 3) fuel hok
    ⟨wordAt d 0 % 4096, by ring⟩ (by omega)
  have hdrain : guardRun (entriesEnd d L 0 (wordAt d 0 % 4096) (wordAt d 0 % 4096 * 3)) L fuel =
      (guardTrace (entriesEnd d L 0 (wordAt d 0 % 4096) (wordAt d 0 % 4096 * 3))
        ((L - entriesEnd d L 0 (wordAt d 0 % 4096) (wordAt d 0 % 4096 * 3)) / 3), L, true) := by
    have h := guardRun_eq ((L - entriesEnd d L 0 (wordAt d 0 % 4096) (wordAt d 0 % 4096 * 3)) / 3)
      (entriesEnd d L 0 (wordAt d 0 % 4096) (wordAt d 0 % 4096 * 3)) fuel (by omega) (by omega)
    rw [show entriesEnd d L 0 (wordAt d 0 % 4096) (wordAt d 0 % 4096 * 3) +
        3 * ((L - entriesEnd d L 0 (wordAt d 0 % 4096) (wordAt d 0 % 4096 * 3)) / 3) = L
      from by omega] at h
    exact h
  simp only [disasm, if_neg h0, hloop, hdrain]
  rfl

lemma mask_testBit_top : ∀ i, i < 32 → Nat.testBit 0xf0000000 i = decide (28 ≤ i) := by
  decide

lemma and_top_nibble (w : Nat) (hw : w < 2 ^ 32) :
    w &&& 0xf0000000 ≠ 0 ↔
      (w.testBit 28 ∨ w.testBit 29 ∨ w.testBit 30 ∨ w.testBit 31) := by
  constructor
  · intro h
    by_contra hc
    push_neg at hc
    obtain ⟨h28, h29, h30, h31⟩ := hc
    apply h
    apply Nat.eq_of_testBit_eq
    intro i
    rw [Nat.testBit_and, Nat.zero_testBit]
    rcases Nat.lt_or_ge i 32 with hi | hi
    · rw [mask_testBit_top i hi]
      rcases Nat.lt_or_ge i 28 with hj | hj
      · simp [Nat.not_le.mpr hj]
      · have hwb : w.testBit i = false := by
          interval_cases i
          · simpa using h28
          · simpa using h29
          · simpa using h30
          · simpa using h31
        simp [hwb]
    · have hwb : w.testBit i = false :=
        Nat.testBit_lt_two_pow (lt_of_lt_of_le hw (Nat.pow_le_pow_right (by norm_num) hi))
      simp [hwb]
  · intro h h0
    have key : ∀ b, b < 32 → 28 ≤ b → w.testBit b = true → False := by
      intro b hb1 hb2 hwb
      have hmb : Nat.testBit 0xf0000000 b = true := by
        rw [mask_testBit_top b hb1]
        simpa using hb2
      have hband : (w &&& 0xf0000000).testBit b = true := by
        rw [Nat.testBit_and, hwb, hmb]
        rfl
      rw [h0, Nat.zero_testBit] at hband
      exact Bool.false_ne_true hband
    rcases h with h | h | h | h
    · exact key 28 (by norm_num) (by norm_num) h
    · exact key 29 (by norm_num) (by norm_num) h
    · exact key 30 (by norm_num) (by norm_num) h
    · exact key 31 (by norm_num) (by norm_num) h

lemma chan_getD_mem (x : Nat) : chan_names.getD (x % 4) 'x' ∈ chan_names := by
  have h4 : x % 4 = 0 ∨ x % 4 = 1 ∨ x % 4 = 2 ∨ x % 4 = 3 := by omega
  rcases h4 with h | h | h | h <;> rw [h] <;> decide

lemma swizChar_mod (s i : Nat) : swizChar s i = chan_names.getD ((s % 4 + i) % 4) 'x' := by
  unfold swizChar
  congr 1
  omega

lemma dstChar_testBit (mask i : Nat) :
    dstChar (mask / 2 ^ i) i = if mask.testBit i then chan_names.getD i '_' else '_' := by
  rw [Nat.testBit_to_div_mod]
  unfold dstChar
  simp only [decide_eq_true_eq]

/-- Claim C3 (amended): decoding the ALU slot `0x140f0001 0x00220000
0xe0020100` extracts opcode field value 0 (bits 24-28 of word 2) and
therefore prints mnemonic ADDv; the destination register (1, word 0 bits
0-4), destination mask (0b1111, word 0 bits 16-19), source 1 register (2,
word 2 bits 16-20) and source 2 register (1, word 2 bits 8-12) decode per
the documented bit layout, and the decode produces output (no failure). -/
theorem C3_alu_example_slot :
    alu_op [0x140f0001, 0x00220000, 0xe0020100] = 0 ∧
    alu_mnemonic (alu_op [0x140f0001, 0x00220000, 0xe0020100]) = some "ADDv" ∧
    alu_dst_reg [0x140f0001, 0x00220000, 0xe0020100] = 1 ∧
    alu_dst_mask [0x140f0001, 0x00220000, 0xe0020100] = 15 ∧
    alu_src1_reg [0x140f0001, 0x00220000, 0xe0020100] = 2 ∧
    alu_src2_reg [0x140f0001, 0x00220000, 0xe0020100] = 1 ∧
    alu_src1_type [0x140f0001, 0x00220000, 0xe0020100] = 0 ∧
    alu_src2_type [0x140f0001, 0x00220000, 0xe0020100] = 0 ∧
    alu_src1_swiz [0x140f0001, 0x00220000, 0xe0020100] = 0x22 ∧
    alu_src2_swiz [0x140f0001, 0x00220000, 0xe0020100] = 0 ∧
    alu_src1_neg [0x140f0001, 0x00220000, 0xe0020100] = 0 ∧
    alu_src2_neg [0x140f0001, 0x00220000, 0xe0020100] = 0 ∧
    disasm_alu [0x140f0001, 0x00220000, 0xe0020100] =
      some "14000000 00000000 20000000\t\tALU:\tADDv\tR1 = R2.zyxw, R1\n" := by
  decide

/-- Claim C3 counterexample: the claim as stated says these words give
opcode field 1 and mnemonic MULv; the code extracts opcode 0 ((0xe0020100
>> 24) & 0x1f = 0) and prints ADDv. -/
theorem C3_alu_example_slot_cex :
    alu_op [0x140f0001, 0x00220000, 0xe0020100] = 0 ∧
    alu_op [0x140f0001, 0x00220000, 0xe0020100] ≠ 1 ∧
    alu_mnemonic (alu_op [0x140f0001, 0x00220000, 0xe0020100]) = some "ADDv" ∧
    alu_mnemonic (alu_op [0x140f0001, 0x00220000, 0xe0020100]) ≠ some "MULv" := by
  decide

/-- Claim C4: the opcode mask 0x1f yields values 0..31 but the `op_name`
table has only 0x1f = 31 entries, so opcode 31 (ALU slot with word 2 =
0xff000000) reads `op_name[31]` one element past the end of the table:
the lookup is NOT in bounds, contradicting the claim (and the spec's
never-fail policy, which the in-range opcodes such as 3 do satisfy). -/
theorem C4_opcode31_out_of_bounds :
    alu_op [0, 0, 0xff000000] = 31 ∧
    (0xff000000 : Nat) &&& 0xf0000000 ≠ 0 ∧
    op_name.length = 31 ∧
    op_name.get? 31 = none ∧
    alu_mnemonic 31 = none ∧
    disasm_alu [0, 0, 0xff000000] = none ∧
    (∀ n, n < 31 → (alu_mnemonic n).isSome = true) ∧
    alu_mnemonic 3 = some "OP(3)" := by
  decide

/-- Claim C7: `disasm_inst` classifies a slot as ALU if and only if at
least one of the top 4 bits of the slot's third word is set (that is,
`dwords[2] & 0xf0000000` is nonzero), delegating to `disasm_alu`, and as
FETCH otherwise, delegating to `disasm_fetch`. -/
theorem C7_dispatch (d : List Nat) (level : Nat) (h2 : wordAt d 2 < 2 ^ 32) :
    (((wordAt d 2).testBit 28 ∨ (wordAt d 2).testBit 29 ∨
        (wordAt d 2).testBit 30 ∨ (wordAt d 2).testBit 31) →
      disasm_inst d level =
        (levels.get? level).bind fun lv =>
          (disasm_alu d).map fun s => lv ++ rawWords d ++ s) ∧
    (¬ ((wordAt d 2).testBit 28 ∨ (wordAt d 2).testBit 29 ∨
        (wordAt d 2).testBit 30 ∨ (wordAt d 2).testBit 31) →
      disasm_inst d level =
        (levels.get? level).map fun lv => lv ++ rawWords d ++ disasm_fetch d) := by
  constructor
  · intro h
    have hA : wordAt d 2 &&& 0xf0000000 ≠ 0 := (and_top_nibble _ h2).2 h
    unfold disasm_inst
    cases levels.get? level with
    | none => rfl
    | some lv => simp [hA]
  · intro h
    have hA : wordAt d 2 &&& 0xf0000000 = 0 := by
      by_contra hx
      exact h ((and_top_nibble _ h2).1 hx)
    unfold disasm_inst
    cases levels.get? level with
    | none => rfl
    | some lv => simp [hA]

/-- Witness for C7 at concrete slots: word 2 = 0xe0020100 (bit 31 set) is
dispatched to the ALU decoder; word 2 = 0x00000100 (top nibble clear) is
dispatched to the FETCH decoder. -/
theorem C7_dispatch_witness :
    disasm_inst [0, 0, 0xe0020100] 0 =
      ((levels.get? 0).bind fun lv =>
        (disasm_alu [0, 0, 0xe0020100]).map fun s =>
          lv ++ rawWords [0, 0, 0xe0020100] ++ s) ∧
    disasm_inst [0, 0, 0x00000100] 1 =
      ((levels.get? 1).map fun lv =>
        lv ++ rawWords [0, 0, 0x00000100] ++ disasm_fetch [0, 0, 0x00000100]) := by
  constructor
  · exact (C7_dispatch [0, 0, 0xe0020100] 0 (by decide)).1 (by decide)
  · exact (C7_dispatch [0, 0, 0x00000100] 1 (by decide)).2 (by decide)

/-- Claim C8: `print_srcreg` puts `-` first exactly when the negate flag
is set (changing nothing else), prints `C` for constants and `R`
otherwise followed by the register number, prints no channel suffix for
swizzle 0, and for nonzero swizzle prints `.` plus exactly 4 channel
characters, the one at destination position `i` being
`chan_names[(field_i + i) mod 4]` where `field_i` is the i-th 2-bit group
of the swizzle; each printed channel character is one of x, y, z, w. -/
theorem C8_print_srcreg (num type swiz negate : Nat) :
    (negate ≠ 0 → print_srcreg num type swiz negate =
      "-" ++ print_srcreg num type swiz 0) ∧
    (swiz = 0 → print_srcreg num type swiz 0 =
      (if type ≠ 0 then "C" else "R") ++ toString num) ∧
    (swiz ≠ 0 → print_srcreg num type swiz 0 =
      (if type ≠ 0 then "C" else "R") ++ toString num ++ "." ++
        String.mk ((List.range 4).map fun i =>
          chan_names.getD ((swiz / 4 ^ i % 4 + i) % 4) 'x')) ∧
    ((List.range 4).map fun i =>
      chan_names.getD ((swiz / 4 ^ i % 4 + i) % 4) 'x').length = 4 ∧
    (∀ c ∈ (List.range 4).map fun i =>
      chan_names.getD ((swiz / 4 ^ i % 4 + i) % 4) 'x', c ∈ chan_names) := by
  have hchars : [swizChar swiz 0, swizChar (swiz / 4) 1, swizChar (swiz / 16) 2,
      swizChar (swiz / 64) 3] =
      (List.range 4).map fun i => chan_names.getD ((swiz / 4 ^ i % 4 + i) % 4) 'x' := by
    have h4 : List.range 4 = [0, 1, 2, 3] := rfl
    rw [h4]
    simp only [List.map_cons, List.map_nil]
    rw [swizChar_mod swiz 0, swizChar_mod (swiz / 4) 1, swizChar_mod (swiz / 16) 2,
      swizChar_mod (swiz / 64) 3]
    norm_num
  refine ⟨?_, ?_, ?_, by simp, ?_⟩
  · intro hneg
    simp [print_srcreg, hneg, String.append_assoc]
  · intro hsz
    simp [print_srcreg, hsz]
  · intro hsz
    simp [print_srcreg, hsz, hchars, String.append_assoc]
  · intro c hc
    simp only [List.mem_map, List.mem_range] at hc
    obtain ⟨i, _, rfl⟩ := hc
    exact chan_getD_mem _

/-- Witness for C8: negate set and swizzle 0x22 give `-R2.zyxw`; constant
class with swizzle 0 gives `C7` with no channel suffix. -/
theorem C8_print_srcreg_witness :
    print_srcreg 2 0 0x22 1 = "-R2.zyxw" ∧ print_srcreg 7 1 0 0 = "C7" := by
  constructor
  · have h1 := (C8_print_srcreg 2 0 0x22 1).1 (by decide)
    have h2 := (C8_print_srcreg 2 0 0x22 1).2.2.1 (by decide)
    rw [h1, h2]
    decide
  · have h := (C8_print_srcreg 7 1 0 0).2.1 rfl
    rw [h]
    decide

/-- Claim C9: `print_dstreg` prints `R<num>` with no channel suffix for
mask 0b1111, and otherwise `R<num>.` plus exactly 4 characters, the one at
position `i` being the channel name if bit `i` of the mask is set and `_`
otherwise; each character is one of x, y, z, w, `_`. -/
theorem C9_print_dstreg (num mask : Nat) :
    (print_dstreg num 15 = "R" ++ toString num) ∧
    (mask ≠ 15 → print_dstreg num mask = "R" ++ toString num ++ "." ++
      String.mk ((List.range 4).map fun i =>
        if mask.testBit i then chan_names.getD i '_' else '_')) ∧
    ((List.range 4).map fun i =>
      if mask.testBit i then chan_names.getD i '_' else '_').length = 4 ∧
    (∀ c ∈ (List.range 4).map fun i =>
      if mask.testBit i then chan_names.getD i '_' else '_', c ∈ '_' :: chan_names) := by
  have hchars : [dstChar mask 0, dstChar (mask / 2) 1, dstChar (mask / 4) 2,
      dstChar (mask / 8) 3] =
      (List.range 4).map fun i => if mask.testBit i then chan_names.getD i '_' else '_' := by
    have h4 : List.range 4 = [0, 1, 2, 3] := rfl
    rw [h4]
    simp only [List.map_cons, List.map_nil]
    rw [← dstChar_testBit mask 0, ← dstChar_testBit mask 1, ← dstChar_testBit mask 2,
      ← dstChar_testBit mask 3]
    norm_num
  refine ⟨by simp [print_dstreg], ?_, by simp, ?_⟩
  · intro hm
    simp [print_dstreg, hm, hchars, String.append_assoc]
  · intro c hc
    simp only [List.mem_map, List.mem_range] at hc
    obtain ⟨i, hi, rfl⟩ := hc
    by_cases hb : mask.testBit i
    · simp only [hb, if_pos]
      interval_cases i <;> decide
    · simp [hb]

/-- Witness for C9: mask 0b1111 gives a bare register, mask 0b0101 marks
channels x and z and replaces y and w with underscores. -/
theorem C9_print_dstreg_witness :
    print_dstreg 3 15 = "R3" ∧ print_dstreg 3 5 = "R3.x_z_" := by
  constructor
  · have h := (C9_print_dstreg 3 15).1
    rw [h]
    decide
  · have h := (C9_print_dstreg 3 5).2.1 (by decide)
    rw [h]
    decide

/-- Claim C10: the `levels` indentation table has exactly 15 entries;
entry `L` for `0 ≤ L ≤ 8` is exactly `L + 1` tab characters (level 0
already yields one tab), entries 9 to 14 are the single character `x`,
and any level 15 or above indexes past the table (no entry exists). -/
theorem C10_levels_table :
    levels.length = 15 ∧
    (∀ L, L < 9 → levels.get? L = some (String.mk (List.replicate (L + 1) '\t'))) ∧
    (∀ L, L < 15 → 9 ≤ L → levels.get? L = some "x") ∧
    (∀ L, 15 ≤ L → levels.get? L = none) := by
  refine ⟨rfl, by decide, by decide, ?_⟩
  intro L hL
  refine List.get?_eq_none.mpr ?_
  simpa using hL

/-- Witness for C10: level 0 is one tab, level 8 is nine tabs, level 14 is
the placeholder `x`, level 20 is past the table. -/
theorem C10_levels_table_witness :
    levels.get? 0 = some "\t" ∧ levels.get? 8 = some "\t\t\t\t\t\t\t\t\t" ∧
    levels.get? 14 = some "x" ∧ levels.get? 20 = none := by
  refine ⟨?_, ?_, ?_, ?_⟩
  · have h := C10_levels_table.2.1 0 (by norm_num)
    rw [h]
    decide
  · have h := C10_levels_table.2.1 8 (by norm_num)
    rw [h]
    decide
  · exact C10_levels_table.2.2.1 14 (by norm_num) (by norm_num)
  · exact C10_levels_table.2.2.2 20 (by norm_num)

/-- Claim C1 (amended): whenever a resync guard target `t = addr * 3` lies
at or AFTER the current cursor `a` (with `t - a` a multiple of 3, as is
invariant in `disasm`) and at or before the end of the buffer (`t ≤ S <
2 ^ 32`), the guard terminates after exactly `k = (t - a) / 3` iterations
with final cursor `t`; the visited cursor positions are strictly
increasing and all below `S`, and every skipped slot is decoded exactly
once, each preceded by a `?` marker.  (The original claim also covered
targets strictly BEFORE the cursor; there the loop overshoots instead —
see the counterexample.) -/
theorem C1_resync_guard (a t S k fuel : Nat) (hk : t = a + 3 * k) (hS : t ≤ S)
    (hM : S < wordMod) (hf : k ≤ fuel) :
    guardRun a t fuel =
      ((prog a k).flatMap fun p => [Event.marker, Event.inst p], t, true) ∧
    (prog a k).Pairwise (· < ·) ∧
    (∀ p ∈ prog a k, a ≤ p ∧ p + 3 ≤ t ∧ p < S) ∧
    (∀ p ∈ prog a k, (guardRun a t fuel).1.count (Event.inst p) = 1) := by
  subst hk
  have hg := guardRun_eq k a fuel (by omega) hf
  refine ⟨?_, prog_pairwise k a, ?_, ?_⟩
  · rw [hg, ← guardTrace_eq_flatMap]
  · intro p hp
    rcases (mem_prog k a p).1 hp with ⟨j, hj, rfl⟩
    omega
  · intro p hp
    rw [hg]
    show (guardTrace a k).count (Event.inst p) = 1
    rw [count_inst_guardTrace]
    exact List.count_eq_one_of_mem (prog_nodup k a) hp

/-- Witness for C1 at a concrete in-order desync: cursor 3, declared
target 9, buffer end 9: two slots are skipped, each marked. -/
theorem C1_resync_guard_witness :
    guardRun 3 9 5 = ([Event.marker, Event.inst 3, Event.marker, Event.inst 6], 9, true) := by
  have h := (C1_resync_guard 3 9 9 2 5 rfl (by norm_num) (by decide) (by norm_num)).1
  rw [h]
  decide

/-- Claim C1 counterexample: on the buffer `[2, 0, 0, 1, 0, 0]` (6 words),
CF entry 1 declares `addr * 3 = 3` while the cursor is already at 6; the
guard loop does not terminate within 100 iterations (flag `false`), the
cursor climbs to 306, far past the 6-word buffer, and slots at and past
the end of the buffer (positions 6, 303, ...) are decoded — refuting
termination with the cursor bounded by the total word count. -/
theorem C1_resync_guard_cex :
    (disasm [2, 0, 0, 1, 0, 0] 6 100).2 = (306, false) ∧
    Event.inst 6 ∈ (disasm [2, 0, 0, 1, 0, 0] 6 100).1 ∧
    Event.inst 303 ∈ (disasm [2, 0, 0, 1, 0, 0] 6 100).1 := by
  decide

/-- Claim C5: for every buffer whose first word is exactly 0 (and whose
length is a positive multiple of 3, the caller precondition), `disasm`
emits exactly one CF entry, with index 0, `addr = 1` and `count =
total_slots - 1`, and sets the instruction cursor to 3 before draining the
remainder of the buffer. -/
theorem C5_degenerate_first_word (d : List Nat) (fuel : Nat)
    (h0 : wordAt d 0 = 0) (h3 : 3 ≤ d.length) (hmod : d.length % 3 = 0)
    (hM : d.length < wordMod) (hfuel : d.length ≤ fuel) :
    disasm d d.length fuel =
      (Event.cf 0 1 (d.length / 3 - 1) :: guardTrace 3 ((d.length - 3) / 3),
       d.length, true) ∧
    cfEvents (disasm d d.length fuel).1 = [Event.cf 0 1 (d.length / 3 - 1)] := by
  have hz := disasm_eq_zero d d.length fuel h0 h3 hmod hM (by omega)
  refine ⟨hz, ?_⟩
  rw [hz]
  show cfEvents (Event.cf 0 1 (d.length / 3 - 1) :: guardTrace 3 ((d.length - 3) / 3)) = _
  rw [cfEvents_cons_cf, cfEvents_guardTrace]

/-- Witness for C5: a 6-word buffer starting with 0 yields exactly the CF
entry `00 CF: ADDR(0x1) CNT(0x1)` and then drains slot 1 from cursor 3. -/
theorem C5_degenerate_first_word_witness :
    disasm [0, 5, 6, 7, 8, 9] 6 10 =
      ([Event.cf 0 1 1, Event.marker, Event.inst 3], 6, true) := by
  have h := (C5_degenerate_first_word [0, 5, 6, 7, 8, 9] 10 (by decide) (by decide)
    (by decide) (by decide) (by decide)).1
  exact h.trans (by decide)

/-- Claim C6 (amended): when the CF-entry loop of `disasm` reaches a
header slot whose word is all-zero (necessarily at an index `i ≥ 1`, since
an all-zero word 0 puts the loop count at 0), the decoder substitutes
`addr = current cursor / 3` and `count = total_slots - addr` for that
entry (`total_slots = sizedwords / 3`), prints a `?` marker, emits the
entry with exactly those substituted values, and then decodes the entry's
`count` body slots starting at the unchanged cursor (the substituted
target equals the cursor, so the resync guard skips nothing in between).
(The claim as stated says `count = total_slots / 3 - addr`, which divides
by 3 once too often — see the counterexample.) -/
theorem C6_zero_header_entry (d : List Nat) (L i n a fuel : Nat)
    (hz : wordAt d (i * 3) = 0) (h3 : 3 ∣ a) (haL : a ≤ L) (hM : L < wordMod) :
    entryOff d L i a = a / 3 ∧
    entryCnt d L i a = L / 3 - a / 3 ∧
    cfLoop d L i (n + 1) a fuel =
      (Event.marker :: Event.cf i (a / 3) (L / 3 - a / 3) ::
        (bodyTrace a (L / 3 - a / 3) ++
          (cfLoop d L (i + 1) n (3 * (L / 3)) fuel).1),
       (cfLoop d L (i + 1) n (3 * (L / 3)) fuel).2) := by
  obtain ⟨aa, rfl⟩ := h3
  have hM2 : L < 4294967296 := hM
  have haa : aa ≤ L / 3 := by omega
  have hdiv : 3 * aa / 3 = aa := by omega
  have hoff : entryOff d L i (3 * aa) = aa := by
    unfold entryOff
    rw [if_pos hz]
    omega
  have hcnt : entryCnt d L i (3 * aa) = L / 3 - aa := by
    unfold entryCnt
    rw [if_pos hz, hdiv]
    simp only [wordMod]
    omega
  have hg : guardRun (3 * aa) (aa * 3) fuel = ([], 3 * aa, true) := by
    have h2 : aa * 3 = 3 * aa := by ring
    rw [h2]
    exact guardRun_self (3 * aa) fuel
  have hb : bodyRun (3 * aa) (L / 3 - aa) =
      (bodyTrace (3 * aa) (L / 3 - aa), 3 * (L / 3)) := by
    have h := bodyRun_eq (L / 3 - aa) (3 * aa) (by omega)
    rw [show 3 * aa + 3 * (L / 3 - aa) = 3 * (L / 3) from by omega] at h
    exact h
  refine ⟨by rw [hoff, hdiv], by rw [hcnt, hdiv], ?_⟩
  simp only [cfLoop, if_pos hz, hoff, hcnt, hdiv, hg, hb]
  rfl

/-- Witness for C6: in a 27-word buffer (9 slots) whose second CF-header
slot is all-zero and with the cursor at 6, the substituted values are
`addr = 6 / 3 = 2` and `count = 9 - 2 = 7`, and the entry is emitted with
them right after a `?` marker. -/
theorem C6_zero_header_entry_witness :
    entryOff ([2, 0, 0, 0, 0, 0] ++ List.replicate 21 5) 27 1 6 = 2 ∧
    entryCnt ([2, 0, 0, 0, 0, 0] ++ List.replicate 21 5) 27 1 6 = 7 ∧
    (cfLoop ([2, 0, 0, 0, 0, 0] ++ List.replicate 21 5) 27 1 1 6 100).1.take 2 =
      [Event.marker, Event.cf 1 2 7] := by
  have h := C6_zero_header_entry ([2, 0, 0, 0, 0, 0] ++ List.replicate 21 5) 27 1 0 6 100
    (by decide) ⟨2, rfl⟩ (by decide) (by decide)
  refine ⟨h.1.trans (by decide), h.2.1.trans (by decide), ?_⟩
  rw [h.2.2]
  decide

/-- Claim C6 counterexample: on the 27-word buffer `[2,0,0, 0,0,0, 5...]`
(9 slots), the all-zero header slot at index 1 is emitted with `count =
7 = total_slots - addr = 9 - 2`, not `total_slots / 3 - addr = 9 / 3 - 2 =
1` as the claim's formula states (`total_slots = word length / 3 = 9` per
the claims' own convention). -/
theorem C6_zero_header_entry_cex :
    Event.cf 1 2 7 ∈ (disasm ([2, 0, 0, 0, 0, 0] ++ List.replicate 21 5) 27 27).1 ∧
    (7 : Nat) = 27 / 3 - 2 ∧
    Event.cf 1 2 1 ∉ (disasm ([2, 0, 0, 0, 0, 0] ++ List.replicate 21 5) 27 27).1 ∧
    (1 : Nat) = 27 / 3 / 3 - 2 := by
  decide

/-- Claim C2 (amended): for every input buffer whose word length is a
positive multiple of 3 (below `2 ^ 32`) and whose CF entries are
well-formed — the header region lies inside the buffer, every entry
declares its start at or after the running cursor, and the declared ranges
end at or before the end of the buffer (`disasmOk`) — `disasm` consumes
every slot exactly once: it terminates with the cursor at the end, the
decoded instruction positions are exactly the arithmetic progression of
slot starts from the end of the CF header region to the end of the buffer
(no slot decoded twice, none skipped), and the number of CF entries
emitted plus the number of instruction slots decoded equals `length / 3`.
(The original claim, quantified over ALL buffers of length a multiple of
3, is refuted by the counterexample.) -/
theorem C2_slot_conservation (d : List Nat) (fuel : Nat)
    (h : disasmOk d d.length = true) (hfuel : d.length ≤ fuel) :
    (disasm d d.length fuel).2 = (d.length, true) ∧
    instPosList (disasm d d.length fuel).1 =
      prog (if wordAt d 0 = 0 then 3 else wordAt d 0 % 4096 * 3)
        ((d.length - if wordAt d 0 = 0 then 3 else wordAt d 0 % 4096 * 3) / 3) ∧
    (instPosList (disasm d d.length fuel).1).Nodup ∧
    (cfEvents (disasm d d.length fuel).1).length =
      (if wordAt d 0 = 0 then 1 else wordAt d 0 % 4096) ∧
    (if wordAt d 0 = 0 then 1 else wordAt d 0 % 4096) +
        (d.length - if wordAt d 0 = 0 then 3 else wordAt d 0 % 4096 * 3) / 3 =
      d.length / 3 := by
  by_cases h0 : wordAt d 0 = 0
  · simp only [disasmOk, h0, eq_self_iff_true, if_true, Bool.and_eq_true,
      decide_eq_true_eq] at h
    obtain ⟨⟨hmod, hM⟩, h3⟩ := h
    have hz := disasm_eq_zero d d.length fuel h0 h3 hmod hM (by omega)
    rw [hz]
    simp only [h0, eq_self_iff_true, if_true]
    refine ⟨by trivial, ?_, ?_, ?_, ?_⟩
    · show instPosList (Event.cf 0 1 (d.length / 3 - 1) ::
        guardTrace 3 ((d.length - 3) / 3)) = prog 3 ((d.length - 3) / 3)
      rw [instPosList_cons_cf, instPosList_guardTrace]
    · show (instPosList (Event.cf 0 1 (d.length / 3 - 1) ::
        guardTrace 3 ((d.length - 3) / 3))).Nodup
      rw [instPosList_cons_cf, instPosList_guardTrace]
      exact prog_nodup _ _
    · show (cfEvents (Event.cf 0 1 (d.length / 3 - 1) ::
        guardTrace 3 ((d.length - 3) / 3))).length = 1
      rw [cfEvents_cons_cf, cfEvents_guardTrace]
      rfl
    · omega
  · simp only [disasmOk, if_neg h0, Bool.and_eq_true, decide_eq_true_eq] at h
    obtain ⟨⟨hmod, hM⟩, ⟨hd3, hok⟩, hend⟩ := h
    have hp := disasm_eq_pos d d.length fuel h0 hok hend hmod hM hfuel
    rw [hp]
    simp only [if_neg h0]
    obtain ⟨ee, hee⟩ := entriesEnd_dvd d d.length (wordAt d 0 % 4096) 0
      (wordAt d 0 % 4096 * 3) ⟨wordAt d 0 % 4096, by ring⟩
    have hmono := entriesEnd_mono d d.length (wordAt d 0 % 4096) 0
      (wordAt d 0 % 4096 * 3) hok
    have hipe := instPosList_entriesTrace d d.length (wordAt d 0 % 4096) 0
      (wordAt d 0 % 4096 * 3) hok ⟨wordAt d 0 % 4096, by ring⟩
    have hlist : instPosList
        (entriesTrace d d.length 0 (wordAt d 0 % 4096) (wordAt d 0 % 4096 * 3) ++
          guardTrace (entriesEnd d d.length 0 (wordAt d 0 % 4096) (wordAt d 0 % 4096 * 3))
            ((d.length - entriesEnd d d.length 0 (wordAt d 0 % 4096)
              (wordAt d 0 % 4096 * 3)) / 3)) =
        prog (wordAt d 0 % 4096 * 3) ((d.length - wordAt d 0 % 4096 * 3) / 3) := by
      rw [instPosList_append, hipe, instPosList_guardTrace]
      have hsplit : (d.length - wordAt d 0 % 4096 * 3) / 3 =
          (entriesEnd d d.length 0 (wordAt d 0 % 4096) (wordAt d 0 % 4096 * 3) -
            wordAt d 0 % 4096 * 3) / 3 +
          (d.length - entriesEnd d d.length 0 (wordAt d 0 % 4096)
            (wordAt d 0 % 4096 * 3)) / 3 := by
        omega
      rw [hsplit, prog_append]
      congr 2
      omega
    refine ⟨by trivial, ?_, ?_, ?_, ?_⟩
    · exact hlist
    · show (instPosList
        (entriesTrace d d.length 0 (wordAt d 0 % 4096) (wordAt d 0 % 4096 * 3) ++
          guardTrace (entriesEnd d d.length 0 (wordAt d 0 % 4096) (wordAt d 0 % 4096 * 3))
            ((d.length - entriesEnd d d.length 0 (wordAt d 0 % 4096)
              (wordAt d 0 % 4096 * 3)) / 3))).Nodup
      rw [hlist]
      exact prog_nodup _ _
    · show (cfEvents
        (entriesTrace d d.length 0 (wordAt d 0 % 4096) (wordAt d 0 % 4096 * 3) ++
          guardTrace (entriesEnd d d.length 0 (wordAt d 0 % 4096) (wordAt d 0 % 4096 * 3))
            ((d.length - entriesEnd d d.length 0 (wordAt d 0 % 4096)
              (wordAt d 0 % 4096 * 3)) / 3))).length = wordAt d 0 % 4096
      rw [cfEvents_append, cfEvents_guardTrace]
      simp [cfEvents_entriesTrace]
    · omega

/-- Witness for C2: the well-formed 9-word buffer `[0x2001, 0, 0, 10, 11,
12, 13, 14, 15]` (one CF entry declaring `addr = 1`, `count = 2`) decodes
slots 1 and 2 exactly once each and emits one CF entry: 1 + 2 = 9 / 3. -/
theorem C2_slot_conservation_witness :
    (disasm [0x2001, 0, 0, 10, 11, 12, 13, 14, 15] 9 9).2 = (9, true) ∧
    instPosList (disasm [0x2001, 0, 0, 10, 11, 12, 13, 14, 15] 9 9).1 = [3, 6] ∧
    (cfEvents (disasm [0x2001, 0, 0, 10, 11, 12, 13, 14, 15] 9 9).1).length = 1 := by
  have h := C2_slot_conservation [0x2001, 0, 0, 10, 11, 12, 13, 14, 15] 9
    (by decide) (by decide)
  exact ⟨h.1.trans (by decide), h.2.1.trans (by decide), h.2.2.2.1.trans (by decide)⟩

/-- Claim C2 counterexample: the buffer `[0xf001, 0, 0, 0, 0, 0]` has word
length 6, a multiple of 3, but its single CF entry declares `count = 15`,
overrunning the buffer: the decode does not terminate within 100 drain
iterations, decodes the out-of-range slot at word position 6, and decodes
115 slots instead of `6 / 3 = 2` — the claim fails for arbitrary buffers
of length a multiple of 3. -/
theorem C2_slot_conservation_cex :
    (6 : Nat) % 3 = 0 ∧
    (disasm [0xf001, 0, 0, 0, 0, 0] 6 100).2.2 = false ∧
    Event.inst 6 ∈ (disasm [0xf001, 0, 0, 0, 0, 0] 6 100).1 ∧
    (instPosList (disasm [0xf001, 0, 0, 0, 0, 0] 6 100).1).length = 115 ∧
    (115 : Nat) ≠ 6 / 3 := by
  decide

end Freedreno
